import Mathlib

/-! Verification of the core of `src/main.py` (Pella CRO Self-Service Test
Builder): the EASIER rubric scorer `easier_total`, the two-proportion
sample-size estimator `sample_size_per_variant`, the duration estimator
`estimate_duration_weeks`, and the catalog row normalizer `to_catalog_row`
with `add_to_catalog`.  Python floats are modelled by exact rationals or
reals, Python exceptions by `Option` (`none` = the call raises / the
estimator reports infeasible). -/

/-- The six fixed EASIER factor names (`EASIER_COMPONENTS` in the source). -/
def EASIER_COMPONENTS : List String :=
  ["Evidence", "Alignment", "Speed", "Impact", "Effort", "Reality"]

/-- The fixed secondary KPI catalog (`SECONDARY_KPIS` in the source). -/
def SECONDARY_KPIS : List String :=
  ["RTA Form Completes (Lead Form Submits)",
   "RTA Form Starts (Lead Form Starts)",
   "CTA Click-through Rate",
   "Page-to-Form CTR",
   "Bounce Rate",
   "Time to First Input",
   "Scroll Depth 50%+",
   "Phone Clicks",
   "Pageviews",
   "Avg. Time on Page"]

/-- A Python value that can appear in the `easier` dict: the form stores
integers, but a re-imported catalog row can bind a factor to a string
(`catalog_page` rebuilds the dict from row cells, which may be `""`). -/
inductive PyVal where
  | vint (z : ℤ)
  | vstr (s : String)
deriving DecidableEq

/-- Python `str.strip` on the character list: drop whitespace at both ends. -/
def stripChars (l : List Char) : List Char :=
  ((l.dropWhile Char.isWhitespace).reverse.dropWhile Char.isWhitespace).reverse

/-- Decimal value of a digit run, `none` on the first non-digit. -/
def decDigitsAux : ℕ → List Char → Option ℕ
  | acc, [] => some acc
  | acc, c :: cs =>
    if c.isDigit then decDigitsAux (10 * acc + (c.toNat - '0'.toNat)) cs else none

/-- Python `int(s)` on a string: strip whitespace, optional sign, at least
one digit; `none` models the `ValueError` (in particular `int("")` raises). -/
def pyIntOfString (s : String) : Option ℤ :=
  match stripChars s.data with
  | [] => none
  | '-' :: cs => if cs = [] then none else (decDigitsAux 0 cs).map (fun n => -(n : ℤ))
  | '+' :: cs => if cs = [] then none else (decDigitsAux 0 cs).map (fun n => (n : ℤ))
  | cs => (decDigitsAux 0 cs).map (fun n => (n : ℤ))

/-- Python `int(v)` on a value of the easier dict; `none` models the raised
`ValueError`/`TypeError`. -/
def pyInt : PyVal → Option ℤ
  | .vint z => some z
  | .vstr s => pyIntOfString s

/-- One term of the rubric sum: Python `int(easier.get(k, 0))`. -/
def easierTerm (easier : String → Option PyVal) (k : String) : Option ℤ :=
  match easier k with
  | none => some 0
  | some v => pyInt v

/-- Left-to-right sum of the rubric terms; the first failing coercion aborts
the sum (the exception propagates out of the generator). -/
def easierSum (easier : String → Option PyVal) : List String → Option ℤ
  | [] => some 0
  | k :: ks => do
      let a ← easierTerm easier k
      let b ← easierSum easier ks
      pure (a + b)

/-- `easier_total` from the source:
`sum(int(easier.get(k, 0)) for k in EASIER_COMPONENTS)`.  The result is
`none` exactly when `int(...)` raises on some present, non-integer-convertible
value. -/
def easier_total (easier : String → Option PyVal) : Option ℤ :=
  easierSum easier EASIER_COMPONENTS

/-- View of an integer-valued rubric dict (the shape the form produces:
every bound value is an `int`). -/
def intEasier (s : String → Option ℤ) : String → Option PyVal :=
  fun k => (s k).map PyVal.vint

/-- The total of an integer-valued rubric: each of the six fixed factors
contributes its value, an absent factor contributes 0. -/
def easierTotalInt (s : String → Option ℤ) : ℤ :=
  (EASIER_COMPONENTS.map (fun k => (s k).getD 0)).sum

lemma easierSum_intEasier (s : String → Option ℤ) (l : List String) :
    easierSum (intEasier s) l = some ((l.map (fun k => (s k).getD 0)).sum) := by
  induction l with
  | nil => rfl
  | cons k ks ih =>
    have hterm : easierTerm (intEasier s) k = some ((s k).getD 0) := by
      cases h : s k <;> simp [easierTerm, intEasier, pyInt, h]
    simp [easierSum, hterm, ih]

/-- On an integer-valued rubric, `easier_total` never raises and returns the
sum of the six fixed factors. -/
lemma easier_total_intEasier (s : String → Option ℤ) :
    easier_total (intEasier s) = some (easierTotalInt s) :=
  easierSum_intEasier s EASIER_COMPONENTS

lemma easierSum_congr {s t : String → Option PyVal} (l : List String)
    (h : ∀ k ∈ l, s k = t k) : easierSum s l = easierSum t l := by
  induction l with
  | nil => rfl
  | cons k ks ih =>
    have hk : s k = t k := h k (by simp)
    simp only [easierSum, easierTerm, hk, ih (fun x hx => h x (by simp [hx]))]

/-- Banker's rounding on an exact rational (Python `round` on a value the
float arithmetic represents exactly): nearest integer, ties to the even one. -/
def pyRound (x : ℚ) : ℤ :=
  if x - ⌊x⌋ < 1/2 then ⌊x⌋
  else if 1/2 < x - ⌊x⌋ then ⌊x⌋ + 1
  else if ⌊x⌋ % 2 = 0 then ⌊x⌋ else ⌊x⌋ + 1

/-- Python `round(x, 2)`: round to two decimal places. -/
def pyRound2 (x : ℚ) : ℚ := (pyRound (100 * x) : ℚ) / 100

/-- `estimate_duration_weeks` from the source.  `none` models the
"infeasible" result (the guarded early returns); nothing in the body can
raise once the guards pass, so the `except` branch is dead. -/
def estimate_duration_weeks (weekly_sessions variants sample_per_variant : ℤ)
    (allocation : ℚ) : Option ℚ :=
  if weekly_sessions ≤ 0 ∨ variants ≤ 0 ∨ sample_per_variant ≤ 0 then none
  else
    let total_required : ℚ := ((sample_per_variant * variants : ℤ) : ℚ)
    let effective_weekly : ℚ := (weekly_sessions : ℚ) * allocation
    if effective_weekly ≤ 0 then none
    else some (pyRound2 (total_required / effective_weekly))

/-- Claim C6: for every integer-valued scores mapping, `easier_total` equals
the sum over exactly the six fixed factor names of the bound value, with an
absent factor contributing 0; keys outside the six are never consulted;
`easier_total {} = 0`; all six factors at 5 give 30 (also with an extra
unrecognized key present). -/
theorem easier_total_int_spec :
    (∀ s : String → Option ℤ, easier_total (intEasier s) =
      some ((EASIER_COMPONENTS.map (fun k => (s k).getD 0)).sum)) ∧
    easier_total (fun _ => none) = some 0 ∧
    easier_total (intEasier (fun k => if k ∈ EASIER_COMPONENTS then some 5 else none)) =
      some 30 ∧
    easier_total (fun k => if k ∈ EASIER_COMPONENTS then some (.vint 5)
      else if k = "Bonus" then some (.vstr "not a number") else none) = some 30 ∧
    (∀ s t : String → Option PyVal, (∀ k ∈ EASIER_COMPONENTS, s k = t k) →
      easier_total s = easier_total t) := by
  refine ⟨easier_total_intEasier, by decide, ?_, by decide, ?_⟩
  · rw [easier_total_intEasier]; decide
  · intro s t h
    exact easierSum_congr EASIER_COMPONENTS h

/-- Claim C10: `easier_total` coerces each present factor value with `int()`,
so a scores mapping binding one of the six fixed names to the empty string
(as a re-exported catalog row with a blank rubric cell produces) makes the
call raise (`none`) instead of returning a total; the never-errors guarantee
holds for absent factors and for integer-valued mappings. -/
theorem easier_total_nonint_raises :
    easier_total (fun k => if k = "Evidence" then some (.vstr "") else none) = none ∧
    easier_total (fun k => if k = "Evidence" then none else none) = some 0 ∧
    (∀ s : String → Option ℤ, (easier_total (intEasier s)).isSome = true) := by
  refine ⟨by decide, by decide, fun s => ?_⟩
  rw [easier_total_intEasier]; rfl

/-- Claim C5: `estimate_duration_weeks` returns `none` exactly when
`weekly_sessions ≤ 0`, `variants ≤ 0`, `sample_per_variant ≤ 0` or the
effective weekly volume `weekly_sessions * allocation` is `≤ 0`; otherwise it
returns `(sample_per_variant * variants) / (weekly_sessions * allocation)`
rounded to 2 decimal places; in particular
`estimate_duration_weeks 1000 2 500 1 = 1.0` and a zero `weekly_sessions`
yields no value. -/
theorem estimate_duration_weeks_spec :
    (∀ (ws v s : ℤ) (a : ℚ), estimate_duration_weeks ws v s a = none ↔
      (ws ≤ 0 ∨ v ≤ 0 ∨ s ≤ 0 ∨ (ws : ℚ) * a ≤ 0)) ∧
    (∀ (ws v s : ℤ) (a : ℚ), ¬(ws ≤ 0 ∨ v ≤ 0 ∨ s ≤ 0 ∨ (ws : ℚ) * a ≤ 0) →
      estimate_duration_weeks ws v s a =
        some (pyRound2 (((s * v : ℤ) : ℚ) / ((ws : ℚ) * a)))) ∧
    estimate_duration_weeks 1000 2 500 1 = some 1 ∧
    (∀ v s a, estimate_duration_weeks 0 v s a = none) := by
  have hiff : ∀ (ws v s : ℤ) (a : ℚ), estimate_duration_weeks ws v s a = none ↔
      (ws ≤ 0 ∨ v ≤ 0 ∨ s ≤ 0 ∨ (ws : ℚ) * a ≤ 0) := by
    intro ws v s a
    unfold estimate_duration_weeks
    by_cases h1 : ws ≤ 0 ∨ v ≤ 0 ∨ s ≤ 0
    · simp only [if_pos h1]
      tauto
    · simp only [if_neg h1]
      by_cases h2 : (ws : ℚ) * a ≤ 0
      · simp only [if_pos h2]
        tauto
      · simp only [if_neg h2]
        have hnot : ¬(ws ≤ 0 ∨ v ≤ 0 ∨ s ≤ 0 ∨ (ws : ℚ) * a ≤ 0) := by
          push_neg
          push_neg at h1
          exact ⟨h1.1, h1.2.1, h1.2.2, not_le.mp h2⟩
        simp [hnot]
  refine ⟨hiff, ?_, ?_, ?_⟩
  · intro ws v s a h
    push_neg at h
    obtain ⟨h1, h2, h3, h4⟩ := h
    unfold estimate_duration_weeks
    rw [if_neg (by push_neg; exact ⟨h1, h2, h3⟩), if_neg (by push_neg; exact h4)]
  · unfold estimate_duration_weeks
    norm_num [pyRound2, pyRound]
  · intro v s a
    rw [hiff]
    left; rfl

/-- A cell of a catalog row: Python stores heterogeneous values in the row
dict (strings, ints, floats). -/
inductive Cell where
  | str (s : String)
  | int (z : ℤ)
  | rat (q : ℚ)
deriving DecidableEq

/-- The working test specification assembled by the form (`form_data` in the
source).  The three baseline numeric fields are `Option`-valued to model a
dict in which the key may be absent; the rubric is the integer-valued mapping
the form's sliders produce. -/
structure FormData where
  test_id : String
  test_name : String
  hypothesis : String
  primary_kpi : String
  secondary_kpis : List String
  weekly_sessions : Option ℤ
  baseline_cr : Option ℚ
  baseline_sample_size : Option ℤ
  audience_placement : String
  easier : String → Option ℤ
  notes : String
  test_types : List String
  funnel_stage : String
  owner : String
  status : String
  start_date : String
  end_date : String
  page_urls : String
  variant_summary : String

/-- Python `", ".join(words)` at the character level. -/
def joinCommaSpace : List (List Char) → List Char
  | [] => []
  | [w] => w
  | w :: ws => w ++ ',' :: ' ' :: joinCommaSpace ws

/-- Python `", ".join` on strings. -/
def joinComma (l : List String) : String :=
  ⟨joinCommaSpace (l.map String.data)⟩

/-- Python `x or ""` on an optional int: `None` and `0` are falsy and give
the empty string, any other int stands. -/
def orEmptyInt : Option ℤ → Cell
  | none => .str ""
  | some z => if z = 0 then .str "" else .int z

/-- Python `x or ""` on an optional float: `None` and `0.0` are falsy and
give the empty string, any other value stands. -/
def orEmptyRat : Option ℚ → Cell
  | none => .str ""
  | some q => if q = 0 then .str "" else .rat q

/-- Python `easier.get(comp, "")`: the bound int or the empty string. -/
def easierCell (s : String → Option ℤ) (comp : String) : Cell :=
  match s comp with
  | none => .str ""
  | some z => .int z

/-- One normalized catalog row (the dict literal built by `to_catalog_row`),
field per column, in the source's column order. -/
structure CatalogRow where
  testId : String
  testName : String
  hypothesis : String
  primaryKpi : String
  secondaryKpis : String
  baselineTrafficWeekly : Cell
  currentConversionRate : Cell
  baselineSampleSize : Cell
  audiencePlacement : String
  easierEvidence : Cell
  easierAlignment : Cell
  easierSpeed : Cell
  easierImpact : Cell
  easierEffort : Cell
  easierReality : Cell
  easierTotal : ℤ
  notes : String
  testType : String
  funnelStage : String
  owner : String
  status : String
  start : String
  endDate : String
  pageUrls : String
  variantSummary : String

/-- `to_catalog_row` from the source.  The rubric total is
`easier_total(form_data.get("easier", {}))`; on the integer-valued rubric the
form produces it never raises and equals `easierTotalInt`
(`easier_total_intEasier`), so the row stores that integer. -/
def to_catalog_row (fd : FormData) : CatalogRow where
  testId := fd.test_id
  testName := fd.test_name
  hypothesis := fd.hypothesis
  primaryKpi := fd.primary_kpi
  secondaryKpis := joinComma fd.secondary_kpis
  baselineTrafficWeekly := orEmptyInt fd.weekly_sessions
  currentConversionRate := orEmptyRat fd.baseline_cr
  baselineSampleSize := orEmptyInt fd.baseline_sample_size
  audiencePlacement := fd.audience_placement
  easierEvidence := easierCell fd.easier "Evidence"
  easierAlignment := easierCell fd.easier "Alignment"
  easierSpeed := easierCell fd.easier "Speed"
  easierImpact := easierCell fd.easier "Impact"
  easierEffort := easierCell fd.easier "Effort"
  easierReality := easierCell fd.easier "Reality"
  easierTotal := easierTotalInt fd.easier
  notes := fd.notes
  testType := joinComma fd.test_types
  funnelStage := fd.funnel_stage
  owner := fd.owner
  status := fd.status
  start := fd.start_date
  endDate := fd.end_date
  pageUrls := fd.page_urls
  variantSummary := fd.variant_summary

/-- `add_to_catalog` from the source: normalize the specification and append
the row to the session catalog. -/
def add_to_catalog (fd : FormData) (catalog : List CatalogRow) : List CatalogRow :=
  catalog ++ [to_catalog_row fd]

/-- The catalog that results from appending each specification in turn,
starting from the empty session catalog. -/
def catalogOf (specs : List FormData) : List CatalogRow :=
  specs.foldl (fun c fd => add_to_catalog fd c) []

/-- Splitting a character list on `','` (Python `s.split(",")`). -/
def splitOnCommaCh : List Char → List (List Char)
  | [] => [[]]
  | c :: cs =>
    if c = ',' then [] :: splitOnCommaCh cs
    else
      match splitOnCommaCh cs with
      | [] => [[c]]
      | w :: ws => (c :: w) :: ws

/-- The re-splitting done by `catalog_page` when a row is exported back to a
specification: `[x.strip() for x in s.split(",") if x.strip()]`. -/
def pyRecoverList (s : String) : List String :=
  (((splitOnCommaCh s.data).map stripChars).filter (· ≠ [])).map (fun l => ⟨l⟩)

lemma splitOnCommaCh_ne_nil (l : List Char) : splitOnCommaCh l ≠ [] := by
  induction l with
  | nil => simp [splitOnCommaCh]
  | cons c cs ih =>
    by_cases h : c = ','
    · simp [splitOnCommaCh, h]
    · simp only [splitOnCommaCh, if_neg h]
      cases hs : splitOnCommaCh cs <;> simp

lemma splitOnCommaCh_no_comma (w : List Char) (h : ',' ∉ w) :
    splitOnCommaCh w = [w] := by
  induction w with
  | nil => rfl
  | cons c cs ih =>
    have hc : ¬ c = ',' := fun hc => h (hc ▸ List.mem_cons_self c cs)
    have hcs : splitOnCommaCh cs = [cs] := ih (fun hm => h (List.mem_cons_of_mem c hm))
    simp [splitOnCommaCh, hc, hcs]

lemma splitOnCommaCh_append (w rest : List Char) (h : ',' ∉ w) :
    splitOnCommaCh (w ++ ',' :: rest) = w :: splitOnCommaCh rest := by
  induction w with
  | nil => simp [splitOnCommaCh]
  | cons c cs ih =>
    have hc : ¬ c = ',' := fun hc => h (hc ▸ List.mem_cons_self c cs)
    have hcs := ih (fun hm => h (List.mem_cons_of_mem c hm))
    simp only [List.cons_append, splitOnCommaCh, if_neg hc, List.append_eq, hcs]

lemma stripChars_space_cons (l : List Char) : stripChars (' ' :: l) = stripChars l := by
  simp [stripChars, List.dropWhile_cons]

/-- Round trip of `", ".join` followed by the split-strip-filter recovery, at
the character level: words that are nonempty, comma-free and already stripped
come back unchanged. -/
lemma joinCommaSpace_roundtrip (ws : List (List Char))
    (h : ∀ w ∈ ws, w ≠ [] ∧ ',' ∉ w ∧ stripChars w = w) :
    ((splitOnCommaCh (joinCommaSpace ws)).map stripChars).filter (· ≠ []) = ws := by
  induction ws with
  | nil => rfl
  | cons w vs ih =>
    obtain ⟨hw, hwc, hws⟩ := h w (by simp)
    cases vs with
    | nil =>
      simp [joinCommaSpace, splitOnCommaCh_no_comma w hwc, hws, hw]
    | cons v vs' =>
      have htail := ih (fun x hx => h x (by simp [hx]))
      have hjoin : joinCommaSpace (w :: v :: vs') =
          w ++ ',' :: ' ' :: joinCommaSpace (v :: vs') := rfl
      rw [hjoin, splitOnCommaCh_append w _ hwc]
      cases hsplit : splitOnCommaCh (joinCommaSpace (v :: vs')) with
      | nil => exact absurd hsplit (splitOnCommaCh_ne_nil _)
      | cons u us =>
        have hspace : splitOnCommaCh (' ' :: joinCommaSpace (v :: vs')) =
            (' ' :: u) :: us := by
          simp only [splitOnCommaCh, if_neg (show ¬ ' ' = ',' by decide), hsplit]
        rw [hspace]
        rw [hsplit] at htail
        simp only [List.map_cons]
        rw [hws, stripChars_space_cons]
        rw [List.filter_cons_of_pos (by simp [hw])]
        simp only [List.map_cons] at htail
        rw [htail]

/-- Each name in the fixed KPI catalog is nonempty, comma-free and has no
surrounding whitespace. -/
lemma secondary_kpis_clean :
    ∀ w ∈ SECONDARY_KPIS, w.data ≠ [] ∧ ',' ∉ w.data ∧ stripChars w.data = w.data := by
  decide

/-- Claim C8 (theorem): serializing the selected secondary KPIs comma-joins
them in order, and the `catalog_page` re-split recovers the original list,
provided every selected KPI comes from the fixed catalog. -/
theorem secondary_kpis_roundtrip (fd : FormData)
    (h : ∀ w ∈ fd.secondary_kpis, w ∈ SECONDARY_KPIS) :
    (to_catalog_row fd).secondaryKpis = joinComma fd.secondary_kpis ∧
    pyRecoverList ((to_catalog_row fd).secondaryKpis) = fd.secondary_kpis := by
  refine ⟨rfl, ?_⟩
  show pyRecoverList (joinComma fd.secondary_kpis) = fd.secondary_kpis
  unfold pyRecoverList joinComma
  have hclean : ∀ w ∈ fd.secondary_kpis.map String.data,
      w ≠ [] ∧ ',' ∉ w ∧ stripChars w = w := by
    intro w hw
    obtain ⟨s, hs, rfl⟩ := List.mem_map.mp hw
    exact secondary_kpis_clean s (h s hs)
  rw [show (String.mk (joinCommaSpace (fd.secondary_kpis.map String.data))).data =
      joinCommaSpace (fd.secondary_kpis.map String.data) from rfl]
  rw [joinCommaSpace_roundtrip _ hclean]
  rw [List.map_map]
  exact List.map_id'' (fun s => rfl) fd.secondary_kpis

/-- A sample specification with two selected secondary KPIs. -/
def sampleSpec : FormData where
  test_id := "T-001"
  test_name := "Homepage CTA"
  hypothesis := "A clearer CTA lifts form starts"
  primary_kpi := "CTA Click-through Rate"
  secondary_kpis := ["Bounce Rate", "Phone Clicks"]
  weekly_sessions := some 1000
  baseline_cr := some (1/20)
  baseline_sample_size := none
  audience_placement := "All visitors"
  easier := fun k => if k ∈ EASIER_COMPONENTS then some 3 else none
  notes := ""
  test_types := ["CTA Styling"]
  funnel_stage := "Conversion"
  owner := "CRO team"
  status := "Proposed"
  start_date := ""
  end_date := ""
  page_urls := "/windows"
  variant_summary := "Control vs bolder CTA"

/-- Claim C8 (witness): the round trip at a concrete two-KPI specification. -/
theorem secondary_kpis_roundtrip_witness :
    (∀ w ∈ sampleSpec.secondary_kpis, w ∈ SECONDARY_KPIS) ∧
    pyRecoverList ((to_catalog_row sampleSpec).secondaryKpis) =
      sampleSpec.secondary_kpis :=
  ⟨by decide, (secondary_kpis_roundtrip sampleSpec (by decide)).2⟩

lemma catalogOf_foldl (specs : List FormData) (acc : List CatalogRow) :
    specs.foldl (fun c fd => add_to_catalog fd c) acc =
      acc ++ specs.map to_catalog_row := by
  induction specs generalizing acc with
  | nil => simp
  | cons fd rest ih =>
    rw [List.foldl_cons, ih, List.map_cons]
    simp [add_to_catalog]

/-- Claim C7: catalog append is order-preserving and non-mutating: appending
the specifications of a list yields a catalog of the same length whose rows
are the normalized (detached) rows in insertion order; an append only adds at
the end, leaving every already-appended row untouched; the appended row is a
pure function of the specification's value at append time. -/
theorem catalog_append_spec :
    (∀ specs : List FormData, catalogOf specs = specs.map to_catalog_row) ∧
    (∀ specs : List FormData, (catalogOf specs).length = specs.length) ∧
    (∀ (fd : FormData) (cat : List CatalogRow),
      add_to_catalog fd cat = cat ++ [to_catalog_row fd]) ∧
    (∀ (fd : FormData) (cat : List CatalogRow),
      (add_to_catalog fd cat).take cat.length = cat) ∧
    (∀ (specs : List FormData) (i : ℕ) (hi : i < specs.length),
      (catalogOf specs)[i]? = some (to_catalog_row (specs.get ⟨i, hi⟩))) := by
  have hof : ∀ specs : List FormData, catalogOf specs = specs.map to_catalog_row :=
    fun specs => catalogOf_foldl specs []
  refine ⟨hof, fun specs => by rw [hof]; simp, fun fd cat => rfl, ?_, ?_⟩
  · intro fd cat
    rw [show add_to_catalog fd cat = cat ++ [to_catalog_row fd] from rfl]
    exact List.take_left cat [to_catalog_row fd]
  · intro specs i hi
    rw [hof, List.getElem?_map, List.getElem?_eq_getElem hi]
    rfl

/-- Claim C9: the normalizer writes the empty string (the representation of
an absent field) into the traffic, conversion-rate and sample-size columns
whenever the field is 0 (Python `x or ""` with falsy 0), so a catalog row
cannot distinguish a present zero from a missing value in those columns. -/
theorem zero_baselines_blank :
    (∀ fd : FormData,
      to_catalog_row {fd with weekly_sessions := some 0} =
        to_catalog_row {fd with weekly_sessions := none} ∧
      to_catalog_row {fd with baseline_cr := some 0} =
        to_catalog_row {fd with baseline_cr := none} ∧
      to_catalog_row {fd with baseline_sample_size := some 0} =
        to_catalog_row {fd with baseline_sample_size := none}) ∧
    (∀ fd : FormData,
      ((to_catalog_row fd).baselineTrafficWeekly = .str "" ↔
        (fd.weekly_sessions = none ∨ fd.weekly_sessions = some 0)) ∧
      ((to_catalog_row fd).currentConversionRate = .str "" ↔
        (fd.baseline_cr = none ∨ fd.baseline_cr = some 0)) ∧
      ((to_catalog_row fd).baselineSampleSize = .str "" ↔
        (fd.baseline_sample_size = none ∨ fd.baseline_sample_size = some 0))) := by
  constructor
  · intro fd
    refine ⟨?_, ?_, ?_⟩ <;> simp [to_catalog_row, orEmptyInt, orEmptyRat]
  · intro fd
    refine ⟨?_, ?_, ?_⟩
    · show orEmptyInt fd.weekly_sessions = .str "" ↔ _
      cases h : fd.weekly_sessions with
      | none => simp [orEmptyInt]
      | some z =>
        by_cases hz : z = 0 <;> simp [orEmptyInt, hz]
    · show orEmptyRat fd.baseline_cr = .str "" ↔ _
      cases h : fd.baseline_cr with
      | none => simp [orEmptyRat]
      | some q =>
        by_cases hq : q = 0 <;> simp [orEmptyRat, hq]
    · show orEmptyInt fd.baseline_sample_size = .str "" ↔ _
      cases h : fd.baseline_sample_size with
      | none => simp [orEmptyInt]
      | some z =>
        by_cases hz : z = 0 <;> simp [orEmptyInt, hz]

/-- Domain of Python `statistics.NormalDist().inv_cdf`: the call raises
`StatisticsError` unless its argument lies strictly between 0 and 1. -/
def invCdfDefined (p : ℝ) : Prop := 0 < p ∧ p < 1

/-- The facts about the standard normal quantile function that the claims
rely on: it is strictly increasing on (0,1) and vanishes at the median. -/
structure IsNormalQuantile (Φinv : ℝ → ℝ) : Prop where
  strictMonoOn : StrictMonoOn Φinv (Set.Ioo 0 1)
  median : Φinv (1 / 2) = 0

open Classical in
/-- `sample_size_per_variant` from the source, parametric in the inverse
standard-normal CDF `Φinv` (the transcendental `NormalDist().inv_cdf`).
Python evaluates the two quantiles first — a quantile argument outside (0,1)
raises, the `except` turns that into `None` — then checks the feasibility
guard; with exact real arithmetic nothing after the guard can raise
(`p2 - p1 = mde_abs > 0`, both square-root arguments are non-negative). -/
noncomputable def sample_size_per_variant (Φinv : ℝ → ℝ)
    (baseline_cr mde_abs alpha power : ℝ) : Option ℤ :=
  if ¬ invCdfDefined (1 - alpha / 2) ∨ ¬ invCdfDefined power then none
  else
    let z_alpha_2 := Φinv (1 - alpha / 2)
    let z_beta := Φinv power
    let p1 := baseline_cr
    let p2 := baseline_cr + mde_abs
    if p2 < 0 ∨ 1 < p2 ∨ p1 ≤ 0 ∨ 1 ≤ p1 ∨ mde_abs ≤ 0 then none
    else
      let p_bar := (p1 + p2) / 2
      let num := z_alpha_2 * Real.sqrt (2 * p_bar * (1 - p_bar)) +
        z_beta * Real.sqrt (p1 * (1 - p1) + p2 * (1 - p2))
      some ⌈num ^ 2 / (p2 - p1) ^ 2⌉

/-- The spec's closed-form sample size (§4.2, step 5), stated from the
spec's words:
`n = [ z_(α/2)·√(2·p̄·(1−p̄)) + z_β·√(p1(1−p1) + p2(1−p2)) ]² / (p2 − p1)²`. -/
noncomputable def specSampleSize (Φinv : ℝ → ℝ)
    (baseline_cr mde_abs alpha power : ℝ) : ℝ :=
  let p1 := baseline_cr
  let p2 := p1 + mde_abs
  let p_bar := (p1 + p2) / 2
  (Φinv (1 - alpha / 2) * Real.sqrt (2 * p_bar * (1 - p_bar)) +
    Φinv power * Real.sqrt (p1 * (1 - p1) + p2 * (1 - p2))) ^ 2 / (p2 - p1) ^ 2

/-- A concrete function with the two quantile properties the claims use
(strictly increasing, zero at 1/2), for instantiating them. -/
noncomputable def Phi1 : ℝ → ℝ := fun p => 40 * (p - 1 / 2)

lemma phi1_quantile : IsNormalQuantile Phi1 := by
  constructor
  · intro a _ b _ hab
    show 40 * (a - 1 / 2) < 40 * (b - 1 / 2)
    linarith
  · show 40 * ((1:ℝ) / 2 - 1 / 2) = 0
    ring

/-- Claim C1: `sample_size_per_variant` never raises (it is `Option`-valued
and total) and returns no value exactly when a quantile evaluation fails
(its argument is outside (0,1)) or the feasibility guard fires
(`p2 < 0`, `p2 > 1`, `p1 ≤ 0`, `p1 ≥ 1` or `mde_abs ≤ 0`). -/
theorem sample_size_none_iff (Φinv : ℝ → ℝ) (baseline_cr mde_abs alpha power : ℝ) :
    sample_size_per_variant Φinv baseline_cr mde_abs alpha power = none ↔
      ((¬ invCdfDefined (1 - alpha / 2) ∨ ¬ invCdfDefined power) ∨
        (baseline_cr + mde_abs < 0 ∨ 1 < baseline_cr + mde_abs ∨
          baseline_cr ≤ 0 ∨ 1 ≤ baseline_cr ∨ mde_abs ≤ 0)) := by
  unfold sample_size_per_variant
  by_cases h1 : ¬ invCdfDefined (1 - alpha / 2) ∨ ¬ invCdfDefined power
  · simp [h1]
  · simp only [if_neg h1]
    by_cases h2 : baseline_cr + mde_abs < 0 ∨ 1 < baseline_cr + mde_abs ∨
        baseline_cr ≤ 0 ∨ 1 ≤ baseline_cr ∨ mde_abs ≤ 0
    · simp [h1, h2]
    · simp [h1, h2]

/-- When the quantile arguments are legal and the guard passes, the function
returns exactly the ceiling of the spec's closed-form value. -/
lemma sample_size_eq_some (Φinv : ℝ → ℝ) (p1 mde alpha power : ℝ)
    (hdef1 : invCdfDefined (1 - alpha / 2)) (hdef2 : invCdfDefined power)
    (h1 : 0 < p1) (h2 : p1 < 1) (h3 : 0 < mde) (h4 : p1 + mde ≤ 1) :
    sample_size_per_variant Φinv p1 mde alpha power =
      some ⌈specSampleSize Φinv p1 mde alpha power⌉ := by
  unfold sample_size_per_variant specSampleSize
  rw [if_neg (by push_neg; exact ⟨hdef1, hdef2⟩)]
  rw [if_neg (by push_neg; exact ⟨by linarith, h4, h1, h2, h3⟩)]

/-- Inversion: a returned value means both quantile arguments were legal,
the guard passed, and the value is the ceiling of the closed form. -/
lemma sample_size_some_inv (Φinv : ℝ → ℝ) (p1 mde alpha power : ℝ) (n : ℤ)
    (h : sample_size_per_variant Φinv p1 mde alpha power = some n) :
    invCdfDefined (1 - alpha / 2) ∧ invCdfDefined power ∧
    0 < p1 ∧ p1 < 1 ∧ 0 < mde ∧ p1 + mde ≤ 1 ∧
    n = ⌈specSampleSize Φinv p1 mde alpha power⌉ := by
  by_cases h1 : ¬ invCdfDefined (1 - alpha / 2) ∨ ¬ invCdfDefined power
  · rw [show sample_size_per_variant Φinv p1 mde alpha power = none from by
      rw [sample_size_none_iff]; exact Or.inl h1] at h
    cases h
  · push_neg at h1
    by_cases h2 : p1 + mde < 0 ∨ 1 < p1 + mde ∨ p1 ≤ 0 ∨ 1 ≤ p1 ∨ mde ≤ 0
    · rw [show sample_size_per_variant Φinv p1 mde alpha power = none from by
        rw [sample_size_none_iff]; exact Or.inr h2] at h
      cases h
    · push_neg at h2
      obtain ⟨hg1, hg2, hg3, hg4, hg5⟩ := h2
      refine ⟨h1.1, h1.2, hg3, hg4, hg5, hg2, ?_⟩
      rw [sample_size_eq_some Φinv p1 mde alpha power h1.1 h1.2 hg3 hg4 hg5 hg2] at h
      exact (Option.some.inj h).symm

/-- Claim C2: for `baseline_cr ∈ (0,1)`, `mde_abs > 0` with
`baseline_cr + mde_abs ∈ [0,1]`, and legal quantile arguments,
`sample_size_per_variant` returns exactly the ceiling of the spec's
closed-form expression `specSampleSize`. -/
theorem sample_size_matches_formula (Φinv : ℝ → ℝ) (p1 mde alpha power : ℝ)
    (hdef1 : invCdfDefined (1 - alpha / 2)) (hdef2 : invCdfDefined power)
    (h1 : 0 < p1) (h2 : p1 < 1) (h3 : 0 < mde) (h4 : p1 + mde ≤ 1) :
    sample_size_per_variant Φinv p1 mde alpha power =
      some ⌈specSampleSize Φinv p1 mde alpha power⌉ :=
  sample_size_eq_some Φinv p1 mde alpha power hdef1 hdef2 h1 h2 h3 h4

/-- Claim C2 (witness): the equality at a concrete feasible input. -/
theorem sample_size_matches_formula_witness :
    invCdfDefined (1 - (1:ℝ)/2 / 2) ∧ invCdfDefined ((3:ℝ)/4) ∧
    (0:ℝ) < 1/5 ∧ (1:ℝ)/5 < 1 ∧ (0:ℝ) < 1/10 ∧ (1:ℝ)/5 + 1/10 ≤ 1 ∧
    sample_size_per_variant Phi1 (1/5) (1/10) (1/2) (3/4) =
      some ⌈specSampleSize Phi1 (1/5) (1/10) (1/2) (3/4)⌉ := by
  refine ⟨⟨by norm_num, by norm_num⟩, ⟨by norm_num, by norm_num⟩,
    by norm_num, by norm_num, by norm_num, by norm_num, ?_⟩
  exact sample_size_matches_formula Phi1 (1/5) (1/10) (1/2) (3/4)
    ⟨by norm_num, by norm_num⟩ ⟨by norm_num, by norm_num⟩
    (by norm_num) (by norm_num) (by norm_num) (by norm_num)

/-- The quantile is non-negative at arguments ≥ 1/2 (within its domain). -/
lemma quantile_nonneg {Φinv : ℝ → ℝ} (hq : IsNormalQuantile Φinv) (x : ℝ)
    (hx : invCdfDefined x) (hge : 1 / 2 ≤ x) : 0 ≤ Φinv x := by
  rcases eq_or_lt_of_le hge with heq | hlt
  · rw [← heq, hq.median]
  · have h12 : (1:ℝ) / 2 ∈ Set.Ioo (0:ℝ) 1 := by norm_num
    have hx' : x ∈ Set.Ioo (0:ℝ) 1 := ⟨hx.1, hx.2⟩
    have := hq.strictMonoOn h12 hx' hlt
    rw [hq.median] at this
    exact this.le

/-- The quantile is monotone on its domain. -/
lemma quantile_mono {Φinv : ℝ → ℝ} (hq : IsNormalQuantile Φinv) (x y : ℝ)
    (hx : invCdfDefined x) (hy : invCdfDefined y) (hxy : x ≤ y) :
    Φinv x ≤ Φinv y :=
  hq.strictMonoOn.monotoneOn ⟨hx.1, hx.2⟩ ⟨hy.1, hy.2⟩ hxy

/-- Claim C3 (amended theorem): whenever `sample_size_per_variant` returns a
value and the fixed parameters satisfy `alpha < 1` and `power ≥ 1/2` (as all
UI-reachable configurations do), that value is strictly positive. -/
theorem sample_size_positive (Φinv : ℝ → ℝ) (hq : IsNormalQuantile Φinv)
    (p1 mde alpha power : ℝ) (n : ℤ)
    (halpha : alpha < 1) (hpower : 1 / 2 ≤ power)
    (h : sample_size_per_variant Φinv p1 mde alpha power = some n) : 0 < n := by
  obtain ⟨hq1, hq2, hp1, hp1', hmde, hsum, hn⟩ :=
    sample_size_some_inv Φinv p1 mde alpha power n h
  have hza : 0 < Φinv (1 - alpha / 2) := by
    have h12 : (1:ℝ) / 2 ∈ Set.Ioo (0:ℝ) 1 := by norm_num
    have harg : (1 - alpha / 2) ∈ Set.Ioo (0:ℝ) 1 := ⟨hq1.1, hq1.2⟩
    have := hq.strictMonoOn h12 harg (by linarith)
    rwa [hq.median] at this
  have hzb : 0 ≤ Φinv power := quantile_nonneg hq power hq2 hpower
  rw [hn]
  rw [Int.ceil_pos]
  simp only [specSampleSize]
  apply div_pos
  · apply pow_pos
    have hApos : 0 < 2 * ((p1 + (p1 + mde)) / 2) * (1 - (p1 + (p1 + mde)) / 2) := by
      nlinarith [mul_pos (show 0 < (p1 + (p1 + mde)) / 2 by linarith)
        (show 0 < 1 - (p1 + (p1 + mde)) / 2 by linarith)]
    have hs1 : 0 < Real.sqrt (2 * ((p1 + (p1 + mde)) / 2) * (1 - (p1 + (p1 + mde)) / 2)) :=
      Real.sqrt_pos.mpr hApos
    have hterm1 := mul_pos hza hs1
    have hterm2 : 0 ≤ Φinv power *
        Real.sqrt (p1 * (1 - p1) + (p1 + mde) * (1 - (p1 + mde))) :=
      mul_nonneg hzb (Real.sqrt_nonneg _)
    linarith
  · apply pow_pos
    linarith

lemma sqrt9 : Real.sqrt 9 = 3 := by
  rw [show (9:ℝ) = 3 ^ 2 by norm_num, Real.sqrt_sq (by norm_num)]

lemma sqrt50 : Real.sqrt 50 = 5 * Real.sqrt 2 := by
  rw [show (50:ℝ) = 5 ^ 2 * 2 by norm_num, Real.sqrt_mul (by positivity),
    Real.sqrt_sq (by norm_num)]

lemma sample_size_Phi1_e :
    sample_size_per_variant Phi1 (1/10) (4/5) (1/2) (1/2) = some 79 := by
  rw [sample_size_eq_some Phi1 (1/10) (4/5) (1/2) (1/2)
    ⟨by norm_num, by norm_num⟩ ⟨by norm_num, by norm_num⟩
    (by norm_num) (by norm_num) (by norm_num) (by norm_num)]
  congr 1
  rw [show specSampleSize Phi1 (1/10) (4/5) (1/2) (1/2) = 625/8 from by
    unfold specSampleSize Phi1
    norm_num
    rw [mul_pow, inv_pow, Real.sq_sqrt (by norm_num : (0:ℝ) ≤ 2)]
    norm_num]
  exact Int.ceil_eq_iff.mpr (by norm_num)

/-- Claim C3 (witness): positivity at a concrete feasible input. -/
theorem sample_size_positive_witness :
    IsNormalQuantile Phi1 ∧ ((1:ℝ)/2 < 1) ∧ ((1:ℝ)/2 ≤ 1/2) ∧
    sample_size_per_variant Phi1 (1/10) (4/5) (1/2) (1/2) = some 79 ∧ (0:ℤ) < 79 :=
  ⟨phi1_quantile, by norm_num, le_refl _, sample_size_Phi1_e,
   sample_size_positive Phi1 phi1_quantile (1/10) (4/5) (1/2) (1/2) 79
     (by norm_num) (by norm_num) sample_size_Phi1_e⟩

/-- Claim C3 (counterexample): with `alpha = 1` and `power = 1/2` both
quantiles are 0 (the median of the standard normal is 0), the numerator
vanishes, and the function returns `some 0` — not a strictly positive
integer — on an otherwise feasible input. -/
theorem sample_size_zero_counterexample :
    IsNormalQuantile Phi1 ∧
    sample_size_per_variant Phi1 (3/10) (1/10) 1 (1/2) = some 0 := by
  refine ⟨phi1_quantile, ?_⟩
  rw [sample_size_eq_some Phi1 (3/10) (1/10) 1 (1/2)
    ⟨by norm_num, by norm_num⟩ ⟨by norm_num, by norm_num⟩
    (by norm_num) (by norm_num) (by norm_num) (by norm_num)]
  congr 1
  rw [show specSampleSize Phi1 (3/10) (1/10) 1 (1/2) = 0 from by
    unfold specSampleSize Phi1
    norm_num]
  exact Int.ceil_zero

lemma Eratio_anti (p1 d1 d2 : ℝ) (hp1 : 0 < p1) (hp1' : p1 < 1)
    (hd1 : 0 < d1) (hd12 : d1 ≤ d2) (hsum : p1 + d2 ≤ 1) :
    (2*p1*(1-p1) + d2*(1-2*p1)) / d2^2 ≤ (2*p1*(1-p1) + d1*(1-2*p1)) / d1^2 := by
  have hd2 : 0 < d2 := lt_of_lt_of_le hd1 hd12
  rw [div_le_div_iff (by positivity) (by positivity)]
  nlinarith [mul_nonneg (sub_nonneg.mpr hd12)
      (mul_nonneg (mul_nonneg (mul_nonneg (by norm_num : (0:ℝ) ≤ 2) hp1.le) hd1.le)
        (by linarith : (0:ℝ) ≤ 1 - p1 - d2)),
    mul_nonneg (sub_nonneg.mpr hd12)
      (mul_nonneg (mul_nonneg (mul_nonneg (by norm_num : (0:ℝ) ≤ 2) hp1.le)
        (by linarith : (0:ℝ) ≤ 1 - p1)) hd2.le),
    mul_nonneg (sub_nonneg.mpr hd12) (mul_nonneg hd1.le hd2.le)]

lemma ratio_shift (x c d : ℝ) (hd : 0 < d) : (x - c*d^2)/d^2 = x/d^2 - c := by
  field_simp
  ring

lemma sqrtRatio_anti (c p1 d1 d2 : ℝ) (hp1 : 0 < p1) (hp1' : p1 < 1)
    (hd1 : 0 < d1) (hd12 : d1 ≤ d2) (hsum : p1 + d2 ≤ 1) :
    Real.sqrt (((2*p1*(1-p1) + d2*(1-2*p1)) - c*d2^2)/d2^2) ≤
    Real.sqrt (((2*p1*(1-p1) + d1*(1-2*p1)) - c*d1^2)/d1^2) := by
  have hd2 : 0 < d2 := lt_of_lt_of_le hd1 hd12
  apply Real.sqrt_le_sqrt
  rw [ratio_shift _ c d2 hd2, ratio_shift _ c d1 hd1]
  have := Eratio_anti p1 d1 d2 hp1 hp1' hd1 hd12 hsum
  linarith

lemma specSampleSize_as_ratio (Φinv : ℝ → ℝ) (p1 d alpha power : ℝ) (hd : 0 < d)
    (hA : 0 ≤ 2 * ((p1 + (p1 + d)) / 2) * (1 - (p1 + (p1 + d)) / 2))
    (hV : 0 ≤ p1 * (1 - p1) + (p1 + d) * (1 - (p1 + d))) :
    specSampleSize Φinv p1 d alpha power =
      (Φinv (1 - alpha / 2) *
          Real.sqrt ((2 * ((p1 + (p1 + d)) / 2) * (1 - (p1 + (p1 + d)) / 2)) / d ^ 2) +
        Φinv power *
          Real.sqrt ((p1 * (1 - p1) + (p1 + d) * (1 - (p1 + d))) / d ^ 2)) ^ 2 := by
  simp only [specSampleSize]
  rw [Real.sqrt_div hA, Real.sqrt_div hV, Real.sqrt_sq hd.le]
  rw [show p1 + d - p1 = d from by ring]
  rw [show Φinv (1 - alpha / 2) *
        (Real.sqrt (2 * ((p1 + (p1 + d)) / 2) * (1 - (p1 + (p1 + d)) / 2)) / d) +
        Φinv power * (Real.sqrt (p1 * (1 - p1) + (p1 + d) * (1 - (p1 + d))) / d)
      = (Φinv (1 - alpha / 2) *
          Real.sqrt (2 * ((p1 + (p1 + d)) / 2) * (1 - (p1 + (p1 + d)) / 2)) +
        Φinv power * Real.sqrt (p1 * (1 - p1) + (p1 + d) * (1 - (p1 + d)))) / d
      from by ring]
  rw [div_pow]

lemma Anonneg (p1 d : ℝ) (hp1 : 0 < p1) (hd : 0 < d) (hsum : p1 + d ≤ 1) :
    0 ≤ 2 * ((p1 + (p1 + d)) / 2) * (1 - (p1 + (p1 + d)) / 2) := by
  have h1 : 0 ≤ (p1 + (p1 + d)) / 2 := by linarith
  have h2 : (p1 + (p1 + d)) / 2 ≤ 1 := by linarith
  nlinarith

lemma Vnonneg (p1 d : ℝ) (hp1 : 0 < p1) (hp1' : p1 < 1) (hd : 0 < d)
    (hsum : p1 + d ≤ 1) :
    0 ≤ p1 * (1 - p1) + (p1 + d) * (1 - (p1 + d)) := by
  have h1 : 0 ≤ p1 * (1 - p1) := by nlinarith
  have h2 : 0 ≤ (p1 + d) * (1 - (p1 + d)) := by nlinarith
  linarith

/-- With non-negative quantile weights, the closed-form sample size is
non-increasing in the absolute effect size. -/
lemma specSampleSize_anti_mde (Φinv : ℝ → ℝ) (p1 alpha power d1 d2 : ℝ)
    (hza : 0 ≤ Φinv (1 - alpha / 2)) (hzb : 0 ≤ Φinv power)
    (hp1 : 0 < p1) (hp1' : p1 < 1) (hd1 : 0 < d1) (hd12 : d1 ≤ d2)
    (hsum : p1 + d2 ≤ 1) :
    specSampleSize Φinv p1 d2 alpha power ≤ specSampleSize Φinv p1 d1 alpha power := by
  have hd2 : 0 < d2 := lt_of_lt_of_le hd1 hd12
  have hsum1 : p1 + d1 ≤ 1 := by linarith
  rw [specSampleSize_as_ratio Φinv p1 d2 alpha power hd2
      (Anonneg p1 d2 hp1 hd2 hsum) (Vnonneg p1 d2 hp1 hp1' hd2 hsum),
    specSampleSize_as_ratio Φinv p1 d1 alpha power hd1
      (Anonneg p1 d1 hp1 hd1 hsum1) (Vnonneg p1 d1 hp1 hp1' hd1 hsum1)]
  have hAi : ∀ d : ℝ, 2 * ((p1 + (p1 + d)) / 2) * (1 - (p1 + (p1 + d)) / 2)
      = (2*p1*(1-p1) + d*(1-2*p1)) - (1/2)*d^2 := fun d => by ring
  have hVi : ∀ d : ℝ, p1 * (1 - p1) + (p1 + d) * (1 - (p1 + d))
      = (2*p1*(1-p1) + d*(1-2*p1)) - 1*d^2 := fun d => by ring
  rw [hAi d1, hAi d2, hVi d1, hVi d2]
  refine pow_le_pow_left ?_ (add_le_add ?_ ?_) 2
  · exact add_nonneg (mul_nonneg hza (Real.sqrt_nonneg _))
      (mul_nonneg hzb (Real.sqrt_nonneg _))
  · exact mul_le_mul_of_nonneg_left
      (sqrtRatio_anti (1/2) p1 d1 d2 hp1 hp1' hd1 hd12 hsum) hza
  · exact mul_le_mul_of_nonneg_left
      (sqrtRatio_anti 1 p1 d1 d2 hp1 hp1' hd1 hd12 hsum) hzb

/-- With non-negative quantile weights, the closed-form sample size is
non-decreasing in the quantile of the requested power. -/
lemma specSampleSize_mono_power (Φinv : ℝ → ℝ) (p1 d alpha pw1 pw2 : ℝ)
    (hza : 0 ≤ Φinv (1 - alpha / 2)) (hzb1 : 0 ≤ Φinv pw1)
    (hzb12 : Φinv pw1 ≤ Φinv pw2) (hd : 0 < d) :
    specSampleSize Φinv p1 d alpha pw1 ≤ specSampleSize Φinv p1 d alpha pw2 := by
  simp only [specSampleSize]
  rw [show p1 + d - p1 = d from by ring]
  gcongr

/-- Claim C4 (amended theorem): with both quantile weights non-negative —
`alpha ≤ 1` and powers ≥ 1/2, satisfied by the defaults and by every
UI-reachable configuration — `sample_size_per_variant` is monotonically
non-increasing in `mde_abs` and non-decreasing in `power`, the other
parameters held fixed. -/
theorem sample_size_monotone (Φinv : ℝ → ℝ) (hq : IsNormalQuantile Φinv)
    (p1 alpha : ℝ) (halpha : alpha ≤ 1) :
    (∀ (power d1 d2 : ℝ) (n1 n2 : ℤ), 1 / 2 ≤ power → d1 ≤ d2 →
      sample_size_per_variant Φinv p1 d1 alpha power = some n1 →
      sample_size_per_variant Φinv p1 d2 alpha power = some n2 → n2 ≤ n1) ∧
    (∀ (d pw1 pw2 : ℝ) (n1 n2 : ℤ), 1 / 2 ≤ pw1 → pw1 ≤ pw2 →
      sample_size_per_variant Φinv p1 d alpha pw1 = some n1 →
      sample_size_per_variant Φinv p1 d alpha pw2 = some n2 → n1 ≤ n2) := by
  constructor
  · intro power d1 d2 n1 n2 hpw hd12 h1 h2
    obtain ⟨ha1, ha2, hp1, hp1', hmde1, _, hn1⟩ :=
      sample_size_some_inv Φinv p1 d1 alpha power n1 h1
    obtain ⟨_, _, _, _, _, hsum2, hn2⟩ :=
      sample_size_some_inv Φinv p1 d2 alpha power n2 h2
    have hza : 0 ≤ Φinv (1 - alpha / 2) :=
      quantile_nonneg hq _ ha1 (by linarith)
    have hzb : 0 ≤ Φinv power := quantile_nonneg hq _ ha2 hpw
    rw [hn1, hn2]
    exact Int.ceil_le_ceil
      (specSampleSize_anti_mde Φinv p1 alpha power d1 d2 hza hzb hp1 hp1' hmde1
        hd12 hsum2)
  · intro d pw1 pw2 n1 n2 hpw1 hpw12 h1 h2
    obtain ⟨ha1, ha2, hp1, hp1', hmde, hsum, hn1⟩ :=
      sample_size_some_inv Φinv p1 d alpha pw1 n1 h1
    obtain ⟨_, hb2, _, _, _, _, hn2⟩ :=
      sample_size_some_inv Φinv p1 d alpha pw2 n2 h2
    have hza : 0 ≤ Φinv (1 - alpha / 2) :=
      quantile_nonneg hq _ ha1 (by linarith)
    have hzb1 : 0 ≤ Φinv pw1 := quantile_nonneg hq _ ha2 hpw1
    have hzb12 : Φinv pw1 ≤ Φinv pw2 := quantile_mono hq pw1 pw2 ha2 hb2 hpw12
    rw [hn1, hn2]
    exact Int.ceil_le_ceil
      (specSampleSize_mono_power Φinv p1 d alpha pw1 pw2 hza hzb1 hzb12 hmde)

/-- Claim C4 (witness): the monotone statement instantiated at a concrete
quantile function, baseline and alpha. -/
theorem sample_size_monotone_witness :
    IsNormalQuantile Phi1 ∧ ((1:ℝ)/2 ≤ 1) ∧
    ((∀ (power d1 d2 : ℝ) (n1 n2 : ℤ), 1 / 2 ≤ power → d1 ≤ d2 →
      sample_size_per_variant Phi1 (1/10) d1 (1/2) power = some n1 →
      sample_size_per_variant Phi1 (1/10) d2 (1/2) power = some n2 → n2 ≤ n1) ∧
    (∀ (d pw1 pw2 : ℝ) (n1 n2 : ℤ), 1 / 2 ≤ pw1 → pw1 ≤ pw2 →
      sample_size_per_variant Phi1 (1/10) d (1/2) pw1 = some n1 →
      sample_size_per_variant Phi1 (1/10) d (1/2) pw2 = some n2 → n1 ≤ n2)) :=
  ⟨phi1_quantile, by norm_num,
   sample_size_monotone Phi1 phi1_quantile (1/10) (1/2) (by norm_num)⟩

/-- A concrete stand-in for the standard normal quantile in the monotonicity
counterexample: piecewise linear, strictly increasing, median 0, and agreeing
with the standard normal quantile at the four arguments the counterexample
uses — `Phi2 (19999/20000) = 3.89` and `Phi2 (1/20000) = -3.89` (true normal
values ±3.8906) and `Phi2 (1/4) = -0.6745` (true value -0.67449). -/
noncomputable def Phi2 : ℝ → ℝ := fun p =>
  if p ≤ 1/4 then 64310/4999 * (p - 1/4) - 1349/2000
  else if p ≤ 1/2 then 1349/500 * (p - 1/2)
  else 77800/9999 * (p - 1/2)

lemma phi2_strictMono : StrictMono Phi2 := by
  intro x y hxy
  unfold Phi2
  split_ifs <;> linarith

lemma phi2_median : Phi2 (1/2) = 0 := by norm_num [Phi2]

lemma phi2_hi : Phi2 (19999/20000) = 389/100 := by norm_num [Phi2]

lemma phi2_lo : Phi2 (1/20000) = -(389/100) := by norm_num [Phi2]

lemma phi2_quarter : Phi2 (1/4) = -(1349/2000) := by norm_num [Phi2]

/-- Bracket bound: with `z_alpha ∈ [3.88, 3.90]` and `z_power ∈ [-3.90, -3.88]`
(the standard normal quantiles at 19999/20000 and 1/20000 are ±3.8906), the
closed-form size at `p1 = 1/10, mde = 1/2` lies in (0, 1]. -/
lemma spec_bounds_mdeHalf (Φinv : ℝ → ℝ)
    (hz1 : (388/100 : ℝ) ≤ Φinv (19999/20000)) (hz1' : Φinv (19999/20000) ≤ 390/100)
    (hz2 : (-(390/100) : ℝ) ≤ Φinv (1/20000)) (hz2' : Φinv (1/20000) ≤ -(388/100)) :
    (0:ℝ) < specSampleSize Φinv (1/10) (1/2) (1/10000) (1/20000) ∧
    specSampleSize Φinv (1/10) (1/2) (1/10000) (1/20000) ≤ 1 := by
  have ha1 : (6745/10000 : ℝ) ≤ Real.sqrt (91/200) := by
    rw [Real.le_sqrt (by norm_num) (by norm_num)]; norm_num
  have ha2 : Real.sqrt ((91:ℝ)/200) < 6746/10000 := by
    rw [Real.sqrt_lt' (by norm_num)]; norm_num
  have hb1 : (5744/10000 : ℝ) ≤ Real.sqrt (33/100) := by
    rw [Real.le_sqrt (by norm_num) (by norm_num)]; norm_num
  have hb2 : Real.sqrt ((33:ℝ)/100) < 5745/10000 := by
    rw [Real.sqrt_lt' (by norm_num)]; norm_num
  have hnum_lb : (37/100 : ℝ) <
      Φinv (19999/20000) * Real.sqrt (91/200) + Φinv (1/20000) * Real.sqrt (33/100) := by
    nlinarith [mul_nonneg (sub_nonneg.mpr hz1) (Real.sqrt_nonneg ((91:ℝ)/200)),
      mul_nonneg (sub_nonneg.mpr hz2) (Real.sqrt_nonneg ((33:ℝ)/100)),
      ha1, hb2, Real.sqrt_nonneg ((33:ℝ)/100)]
  have hnum_ub :
      Φinv (19999/20000) * Real.sqrt (91/200) + Φinv (1/20000) * Real.sqrt (33/100)
        < 41/100 := by
    nlinarith [mul_nonneg (sub_nonneg.mpr hz1') (Real.sqrt_nonneg ((91:ℝ)/200)),
      mul_nonneg (sub_nonneg.mpr hz2') (Real.sqrt_nonneg ((33:ℝ)/100)),
      ha2, hb1, Real.sqrt_nonneg ((91:ℝ)/200)]
  constructor
  · simp only [specSampleSize]
    norm_num
    rw [← Real.sqrt_div (by norm_num : (0:ℝ) ≤ 91),
        ← Real.sqrt_div (by norm_num : (0:ℝ) ≤ 33)]
    exact pow_pos (by linarith) 2
  · simp only [specSampleSize]
    norm_num
    rw [← Real.sqrt_div (by norm_num : (0:ℝ) ≤ 91),
        ← Real.sqrt_div (by norm_num : (0:ℝ) ≤ 33)]
    rw [div_le_iff (by norm_num)]
    nlinarith [hnum_lb, hnum_ub,
      mul_pos (show (0:ℝ) < 41/100 - (Φinv (19999/20000) * Real.sqrt (91/200) +
          Φinv (1/20000) * Real.sqrt (33/100)) by linarith)
        (show (0:ℝ) < 41/100 + (Φinv (19999/20000) * Real.sqrt (91/200) +
          Φinv (1/20000) * Real.sqrt (33/100)) by linarith)]

/-- Bracket bound: with the same quantile brackets, the closed-form size at
`p1 = 1/10, mde = 4/5` lies in (1, 2]. -/
lemma spec_bounds_mdeLarge (Φinv : ℝ → ℝ)
    (hz1 : (388/100 : ℝ) ≤ Φinv (19999/20000)) (hz1' : Φinv (19999/20000) ≤ 390/100)
    (hz2 : (-(390/100) : ℝ) ≤ Φinv (1/20000)) (hz2' : Φinv (1/20000) ≤ -(388/100)) :
    (1:ℝ) < specSampleSize Φinv (1/10) (4/5) (1/10000) (1/20000) ∧
    specSampleSize Φinv (1/10) (4/5) (1/10000) (1/20000) ≤ 2 := by
  have hu : Real.sqrt 2 ^ 2 = 2 := Real.sq_sqrt (by norm_num)
  have hu0 : (0:ℝ) < Real.sqrt 2 := Real.sqrt_pos.mpr (by norm_num)
  have hkey : Φinv (19999/20000) * (Real.sqrt 2)⁻¹ +
        Φinv (1/20000) * (3/(5 * Real.sqrt 2))
      = (Φinv (19999/20000) + (3/5) * Φinv (1/20000)) * (Real.sqrt 2)⁻¹ := by
    field_simp
    ring
  have hipow : ((Real.sqrt 2)⁻¹) ^ 2 = (1/2 : ℝ) := by
    rw [inv_pow, hu]
    norm_num
  have hw1 : (154/100 : ℝ) ≤ Φinv (19999/20000) + (3/5) * Φinv (1/20000) := by linarith
  have hw2 : Φinv (19999/20000) + (3/5) * Φinv (1/20000) ≤ (1572/1000 : ℝ) := by linarith
  constructor
  · simp only [specSampleSize]
    norm_num
    rw [sqrt9, sqrt50, hkey, mul_pow, hipow]
    rw [lt_div_iff (by norm_num)]
    nlinarith [hw1, hw2]
  · simp only [specSampleSize]
    norm_num
    rw [sqrt9, sqrt50, hkey, mul_pow, hipow]
    rw [div_le_iff (by norm_num)]
    nlinarith [hw1, hw2]

/-- Bracket bound: with `alpha = 1` (so `z_alpha = Φinv (1/2) = 0`) and
`z_power ∈ [-3.90, -3.88]`, the closed-form size at `p1 = 1/10, mde = 4/5`
lies in (4, 5]. -/
lemma spec_bounds_powerTiny (Φinv : ℝ → ℝ) (hmed : Φinv (1/2) = 0)
    (hz2 : (-(390/100) : ℝ) ≤ Φinv (1/20000)) (hz2' : Φinv (1/20000) ≤ -(388/100)) :
    (4:ℝ) < specSampleSize Φinv (1/10) (4/5) 1 (1/20000) ∧
    specSampleSize Φinv (1/10) (4/5) 1 (1/20000) ≤ 5 := by
  have hu : Real.sqrt 2 ^ 2 = 2 := Real.sq_sqrt (by norm_num)
  have hu0 : (0:ℝ) < Real.sqrt 2 := Real.sqrt_pos.mpr (by norm_num)
  have hfrac : (3/(5 * Real.sqrt 2)) ^ 2 = (9/50 : ℝ) := by
    rw [div_pow, mul_pow, hu]
    norm_num
  constructor
  · simp only [specSampleSize]
    norm_num
    rw [sqrt9, sqrt50, hmed, zero_mul, zero_add, mul_pow, hfrac]
    rw [lt_div_iff (by norm_num)]
    nlinarith [mul_nonneg (show (0:ℝ) ≤ -(388/100) - Φinv (1/20000) by linarith)
      (show (0:ℝ) ≤ -(388/100) + Φinv (1/20000) + 2 * (390/100) by linarith)]
  · simp only [specSampleSize]
    norm_num
    rw [sqrt9, sqrt50, hmed, zero_mul, zero_add, mul_pow, hfrac]
    rw [div_le_iff (by norm_num)]
    nlinarith [mul_nonneg (show (0:ℝ) ≤ Φinv (1/20000) + 390/100 by linarith)
      (show (0:ℝ) ≤ 390/100 - Φinv (1/20000) by linarith)]

/-- Bracket bound: with `alpha = 1` and `z_power ∈ [-0.68, -0.67]` (the
standard normal quantile at 1/4 is -0.67449), the closed-form size at
`p1 = 1/10, mde = 4/5` lies in (0, 1]. -/
lemma spec_bounds_powerQuarter (Φinv : ℝ → ℝ) (hmed : Φinv (1/2) = 0)
    (hz3 : (-(68/100) : ℝ) ≤ Φinv (1/4)) (hz3' : Φinv (1/4) ≤ -(67/100)) :
    (0:ℝ) < specSampleSize Φinv (1/10) (4/5) 1 (1/4) ∧
    specSampleSize Φinv (1/10) (4/5) 1 (1/4) ≤ 1 := by
  have hu : Real.sqrt 2 ^ 2 = 2 := Real.sq_sqrt (by norm_num)
  have hu0 : (0:ℝ) < Real.sqrt 2 := Real.sqrt_pos.mpr (by norm_num)
  have hfrac : (3/(5 * Real.sqrt 2)) ^ 2 = (9/50 : ℝ) := by
    rw [div_pow, mul_pow, hu]
    norm_num
  constructor
  · simp only [specSampleSize]
    norm_num
    rw [sqrt9, sqrt50, hmed, zero_mul, zero_add, mul_pow, hfrac]
    nlinarith [mul_nonneg (show (0:ℝ) ≤ -Φinv (1/4) - 67/100 by linarith)
      (show (0:ℝ) ≤ -Φinv (1/4) + 67/100 by linarith)]
  · simp only [specSampleSize]
    norm_num
    rw [sqrt9, sqrt50, hmed, zero_mul, zero_add, mul_pow, hfrac]
    rw [div_le_iff (by norm_num)]
    nlinarith [mul_nonneg (show (0:ℝ) ≤ Φinv (1/4) + 68/100 by linarith)
      (show (0:ℝ) ≤ 68/100 - Φinv (1/4) by linarith)]

/-- With `alpha = 1/10000` and `power = 1/20000`, any quantile function whose
values at 19999/20000 and 1/20000 lie in [3.88, 3.90] and [-3.90, -3.88] —
brackets that contain the standard normal values ±3.8906 — makes the sample
size rise from 1 to 2 as `mde_abs` grows from 1/2 to 4/5, exactly as the
source program does at these inputs. -/
lemma sample_size_rises_with_mde (Φinv : ℝ → ℝ)
    (hz1 : (388/100 : ℝ) ≤ Φinv (19999/20000)) (hz1' : Φinv (19999/20000) ≤ 390/100)
    (hz2 : (-(390/100) : ℝ) ≤ Φinv (1/20000)) (hz2' : Φinv (1/20000) ≤ -(388/100)) :
    sample_size_per_variant Φinv (1/10) (1/2) (1/10000) (1/20000) = some 1 ∧
    sample_size_per_variant Φinv (1/10) (4/5) (1/10000) (1/20000) = some 2 := by
  constructor
  · rw [sample_size_eq_some Φinv (1/10) (1/2) (1/10000) (1/20000)
      ⟨by norm_num, by norm_num⟩ ⟨by norm_num, by norm_num⟩
      (by norm_num) (by norm_num) (by norm_num) (by norm_num)]
    congr 1
    obtain ⟨hlo, hhi⟩ := spec_bounds_mdeHalf Φinv hz1 hz1' hz2 hz2'
    exact Int.ceil_eq_iff.mpr ⟨by push_cast; linarith, by push_cast; linarith⟩
  · rw [sample_size_eq_some Φinv (1/10) (4/5) (1/10000) (1/20000)
      ⟨by norm_num, by norm_num⟩ ⟨by norm_num, by norm_num⟩
      (by norm_num) (by norm_num) (by norm_num) (by norm_num)]
    congr 1
    obtain ⟨hlo, hhi⟩ := spec_bounds_mdeLarge Φinv hz1 hz1' hz2 hz2'
    exact Int.ceil_eq_iff.mpr ⟨by push_cast; linarith, by push_cast; linarith⟩

/-- With `alpha = 1` (median quantile 0), any quantile function whose values
at 1/20000 and 1/4 lie in [-3.90, -3.88] and [-0.68, -0.67] — brackets that
contain the standard normal values -3.8906 and -0.67449 — makes the sample
size fall from 5 to 1 as `power` grows from 1/20000 to 1/4, exactly as the
source program does at these inputs. -/
lemma sample_size_falls_with_power (Φinv : ℝ → ℝ) (hmed : Φinv (1/2) = 0)
    (hz2 : (-(390/100) : ℝ) ≤ Φinv (1/20000)) (hz2' : Φinv (1/20000) ≤ -(388/100))
    (hz3 : (-(68/100) : ℝ) ≤ Φinv (1/4)) (hz3' : Φinv (1/4) ≤ -(67/100)) :
    sample_size_per_variant Φinv (1/10) (4/5) 1 (1/20000) = some 5 ∧
    sample_size_per_variant Φinv (1/10) (4/5) 1 (1/4) = some 1 := by
  constructor
  · rw [sample_size_eq_some Φinv (1/10) (4/5) 1 (1/20000)
      ⟨by norm_num, by norm_num⟩ ⟨by norm_num, by norm_num⟩
      (by norm_num) (by norm_num) (by norm_num) (by norm_num)]
    congr 1
    obtain ⟨hlo, hhi⟩ := spec_bounds_powerTiny Φinv hmed hz2 hz2'
    exact Int.ceil_eq_iff.mpr ⟨by push_cast; linarith, by push_cast; linarith⟩
  · rw [sample_size_eq_some Φinv (1/10) (4/5) 1 (1/4)
      ⟨by norm_num, by norm_num⟩ ⟨by norm_num, by norm_num⟩
      (by norm_num) (by norm_num) (by norm_num) (by norm_num)]
    congr 1
    obtain ⟨hlo, hhi⟩ := spec_bounds_powerQuarter Φinv hmed hz3 hz3'
    exact Int.ceil_eq_iff.mpr ⟨by push_cast; linarith, by push_cast; linarith⟩

/-- Claim C4 (counterexample): at `alpha = 1/10000, power = 1/20000` the
sample size rises from 1 to 2 as `mde_abs` grows from 1/2 to 4/5, and at
`alpha = 1` it falls from 5 to 1 as `power` grows from 1/20000 to 1/4, on
baseline 1/10 — refuting both monotonicity directions of the claim as
stated.  `Phi2` stands in for the inverse standard-normal CDF: it is
strictly increasing with median 0 and takes the values 3.89, -3.89 and
-0.6745 at the three quantile arguments used, matching the standard normal
values 3.8906, -3.8906 and -0.67449 to within 0.001; by
`sample_size_rises_with_mde` and `sample_size_falls_with_power` the four
outputs are the same for every quantile function inside those brackets, in
particular for the source's `NormalDist().inv_cdf`, so the program itself
returns 1, 2, 5, 1 at these inputs. -/
theorem sample_size_monotone_counterexample :
    IsNormalQuantile Phi2 ∧
    (Phi2 (19999/20000) = 389/100 ∧ Phi2 (1/20000) = -(389/100) ∧
      Phi2 (1/4) = -(1349/2000)) ∧
    ((1:ℝ)/2 ≤ 4/5 ∧
      sample_size_per_variant Phi2 (1/10) (1/2) (1/10000) (1/20000) = some 1 ∧
      sample_size_per_variant Phi2 (1/10) (4/5) (1/10000) (1/20000) = some 2 ∧
      ¬((2:ℤ) ≤ 1)) ∧
    ((1:ℝ)/20000 ≤ 1/4 ∧
      sample_size_per_variant Phi2 (1/10) (4/5) 1 (1/20000) = some 5 ∧
      sample_size_per_variant Phi2 (1/10) (4/5) 1 (1/4) = some 1 ∧
      ¬((5:ℤ) ≤ 1)) := by
  obtain ⟨e1, e2⟩ := sample_size_rises_with_mde Phi2
    (by rw [phi2_hi]; norm_num) (by rw [phi2_hi]; norm_num)
    (by rw [phi2_lo]; norm_num) (by rw [phi2_lo]; norm_num)
  obtain ⟨e3, e4⟩ := sample_size_falls_with_power Phi2 phi2_median
    (by rw [phi2_lo]; norm_num) (by rw [phi2_lo]; norm_num)
    (by rw [phi2_quarter]; norm_num) (by rw [phi2_quarter]; norm_num)
  exact ⟨⟨phi2_strictMono.strictMonoOn _, phi2_median⟩,
    ⟨phi2_hi, phi2_lo, phi2_quarter⟩,
    ⟨by norm_num, e1, e2, by decide⟩,
    ⟨by norm_num, e3, e4, by decide⟩⟩
